import Mathlib

/-!
Verification of `eval_runner.py` against its natural-language specification.

The Python source is shallowly embedded below.  Strings are modelled as Lean
`String` (lists of unicode characters); the ASCII fragment of Python's
`str.lower`, `str.strip` and single-character `str.split` is modelled by
structural Lean functions so that every definition evaluates by kernel
reduction.  Machine-level concerns (file handles, stdout, the network) are
out of the embedding: the completion provider is an explicit function
`String → Except String String` (prompt to result-or-error), and CSV content
is a list of already-split records.
-/

/-! ### Basic character/string utilities (ASCII model of the Python built-ins) -/

/-- The opening brace character, written via its code point. -/
def obrace : Char := '\x7b'

/-- The closing brace character, written via its code point. -/
def cbrace : Char := '\x7d'

/-- ASCII whitespace recognised by Python's `str.strip`. -/
def isSpace (c : Char) : Bool :=
  c = ' ' || c = '\t' || c = '\n' || c = '\r' || c = '\x0b' || c = '\x0c'

/-- Strip leading and trailing whitespace from a character list
(Python `str.strip`, ASCII fragment). -/
def trimL (l : List Char) : List Char :=
  ((l.dropWhile isSpace).reverse.dropWhile isSpace).reverse

/-- Python `str.strip` on strings (ASCII fragment). -/
def pyStrip (s : String) : String := ⟨trimL s.data⟩

/-- Lower-case one character (Python `str.lower`, ASCII fragment). -/
def lowerChar (c : Char) : Char :=
  if 'A' ≤ c ∧ c ≤ 'Z' then Char.ofNat (c.toNat + 32) else c

/-- Python `str.lower` on strings (ASCII fragment). -/
def pyLower (s : String) : String := ⟨s.data.map lowerChar⟩

/-- Split a character list on a single separator character, keeping empty
pieces, exactly as Python's `str.split(sep)` with a one-character separator:
the empty string yields `[""]`, a trailing separator yields a trailing
empty piece. -/
def splitOnChar (sep : Char) : List Char → List (List Char)
  | [] => [[]]
  | c :: cs =>
    if c = sep then [] :: splitOnChar sep cs
    else
      match splitOnChar sep cs with
      | [] => [[c]]
      | h :: t => (c :: h) :: t

/-- Python's substring test `needle in hay` on character lists. -/
def listContains (needle : List Char) : List Char → Bool
  | [] => needle.isEmpty
  | c :: cs => needle.isPrefixOf (c :: cs) || listContains needle cs

/-- Python's substring test `needle in hay` on strings. -/
def pyContains (hay needle : String) : Bool :=
  listContains needle.data hay.data

/-- Python `s[:n]`: the first `n` characters of a string. -/
def strTake (s : String) (n : Nat) : String := ⟨s.data.take n⟩

/-! ### `check_output` (source lines 47-68) -/

/-- The trimmed list of pipe-separated alternatives of an expected-output
spec: `[alt.strip() for alt in expected.split("|")]`. -/
def alternativesOf (expected : String) : List String :=
  (splitOnChar '|' expected.data).map (fun l => pyStrip ⟨l⟩)

/-- The `for alt in alternatives` loop of `check_output`: return `(True, alt)`
at the first alternative whose lower-casing occurs in the lower-cased actual
output, else `(False, None)`. -/
def findAlt (actualLower : String) : List String → Bool × Option String
  | [] => (false, none)
  | alt :: rest =>
    if pyContains actualLower (pyLower alt) then (true, some alt)
    else findAlt actualLower rest

/-- `check_output(actual, expected)` from the source: empty spec always
passes with no matched term; otherwise scan the trimmed alternatives for the
first case-insensitive substring match. -/
def check_output (actual expected : String) : Bool × Option String :=
  if expected = "" then (true, none)
  else findAlt (pyLower actual) (alternativesOf expected)

/-! ### Helper lemmas about the string utilities -/

theorem isPrefixOf_iff {l1 l2 : List Char} :
    l1.isPrefixOf l2 = true ↔ l1 <+: l2 := by
  induction l1 generalizing l2 with
  | nil => simp [List.isPrefixOf, List.nil_prefix]
  | cons a as ih =>
    cases l2 with
    | nil => simp [List.isPrefixOf]
    | cons b bs =>
      simp [List.isPrefixOf, List.cons_prefix_cons, ih, Bool.and_eq_true,
        beq_iff_eq]

theorem listContains_iff {nd hay : List Char} :
    listContains nd hay = true ↔ nd <:+: hay := by
  induction hay with
  | nil =>
    simp [listContains, List.isEmpty_iff, List.infix_nil]
  | cons c cs ih =>
    simp [listContains, Bool.or_eq_true, isPrefixOf_iff, ih,
      List.infix_cons_iff]

theorem listContains_eq_decide (nd hay : List Char) :
    listContains nd hay = decide (nd <:+: hay) := by
  by_cases h : nd <:+: hay
  · simp [h, listContains_iff]
  · rw [decide_eq_false h]
    cases hc : listContains nd hay
    · rfl
    · exact absurd (listContains_iff.mp hc) h

theorem listContains_nil_left (hay : List Char) :
    listContains [] hay = true := by
  cases hay <;> simp [listContains, List.isPrefixOf]

/-! ### `fill_template` (source lines 38-44)

Python's `result.replace(placeholder, value or "")` scans left to right and
replaces every non-overlapping occurrence of the (always non-empty) pattern.
`replScan` is that scan, written structurally: `skip` counts pattern
characters still to be consumed after a match. -/

/-- Left-to-right scan of `s` replacing each occurrence of the non-empty
pattern `p :: ps` by `rep` (Python `str.replace` with a non-empty pattern).
After a match the first pattern character is the current one, so the
remaining `ps.length` characters are skipped via the `skip` counter. -/
def replScan (p : Char) (ps rep : List Char) : Nat → List Char → List Char
  | _, [] => []
  | n + 1, _ :: cs => replScan p ps rep n cs
  | 0, c :: cs =>
    if (p :: ps).isPrefixOf (c :: cs) then
      rep ++ replScan p ps rep ps.length cs
    else c :: replScan p ps rep 0 cs

/-- Python `s.replace(pat, rep)`; the source only ever calls it with a
non-empty pattern, for which this is exact (the empty-pattern case is
unused and left as the identity). -/
def replaceAll (pat rep s : List Char) : List Char :=
  match pat with
  | [] => s
  | p :: ps => replScan p ps rep 0 s

/-- Python `s.replace(pat, rep)` on strings. -/
def pyReplace (s pat rep : String) : String :=
  ⟨replaceAll pat.data rep.data s.data⟩

/-- The placeholder `f"{{{{{key}}}}}"` built by `fill_template`, i.e. the
key wrapped in double braces. -/
def placeholder (key : String) : String :=
  "\x7b\x7b" ++ key ++ "\x7d\x7d"

/-- A CSV row as the ordered variable mapping handed to `fill_template`:
an association list from column name to value (`none` models Python `None`,
which `csv.DictReader` stores for missing trailing fields). -/
abbrev Row := List (String × Option String)

/-- `fill_template(template, variables)` from the source: for each variable
in mapping order, replace every occurrence of its `{{KEY}}` placeholder by
its value, where `value or ""` turns `None` into the empty string. -/
def fill_template (template : String) (vars : Row) : String :=
  vars.foldl
    (fun result kv => pyReplace result (placeholder kv.1) (kv.2.getD "")) template

/-! ### Helper lemmas about `replScan` and `fill_template` -/

theorem placeholder_data (key : String) :
    (placeholder key).data =
      obrace :: obrace :: (key.data ++ [cbrace, cbrace]) := by
  simp [placeholder, String.data_append, obrace, cbrace]

theorem str_mk_data (s : String) : String.mk s.data = s := rfl

theorem replScan_skip_drop (p : Char) (ps rep : List Char) :
    ∀ (n : Nat) (s : List Char),
      replScan p ps rep n s = replScan p ps rep 0 (s.drop n) := by
  intro n
  induction n with
  | zero => intro s; simp
  | succ m ih =>
    intro s
    cases s with
    | nil => simp [replScan]
    | cons c cs => simpa [replScan] using ih cs

theorem replScan_append_of_ne (p : Char) (ps rep : List Char)
    (u : List Char) (hu : ∀ c ∈ u, c ≠ p) (t : List Char) :
    replScan p ps rep 0 (u ++ t) = u ++ replScan p ps rep 0 t := by
  induction u with
  | nil => simp
  | cons c cs ih =>
    have hc : c ≠ p := hu c (List.mem_cons_self c cs)
    have hpre : (p :: ps).isPrefixOf (c :: (cs ++ t)) = false := by
      simp [List.isPrefixOf]
      intro h
      exact absurd h.symm hc
    have hrest : ∀ d ∈ cs, d ≠ p := fun d hd => hu d (List.mem_cons_of_mem c hd)
    simp [replScan, hpre, ih hrest]

theorem replScan_eq_self_of_not_contains (p : Char) (ps rep : List Char)
    (s : List Char) (h : listContains (p :: ps) s = false) :
    replScan p ps rep 0 s = s := by
  induction s with
  | nil => simp [replScan]
  | cons c cs ih =>
    rw [listContains] at h
    have h1 : (p :: ps).isPrefixOf (c :: cs) = false := by
      cases hb : (p :: ps).isPrefixOf (c :: cs)
      · rfl
      · rw [hb] at h; simp at h
    have h2 : listContains (p :: ps) cs = false := by
      cases hb : listContains (p :: ps) cs
      · rfl
      · rw [hb] at h; simp at h
    simp [replScan, h1, ih h2]

theorem pyReplace_eq_self_of_not_contains (s pat rep : String)
    (hne : pat.data ≠ []) (h : listContains pat.data s.data = false) :
    pyReplace s pat rep = s := by
  unfold pyReplace replaceAll
  cases hp : pat.data with
  | nil => exact absurd hp hne
  | cons p ps =>
    rw [hp] at h
    show String.mk (replScan p ps rep.data 0 s.data) = s
    rw [replScan_eq_self_of_not_contains p ps rep.data s.data h]

/-! ### A specification-side model of well-formed templates

The spec's data-model invariant says placeholder syntax is "unambiguous and
non-nested": a template is an alternation of brace-free literal segments and
`\x7b\x7bNAME\x7d\x7d` placeholders with non-empty brace-free names.  `Piece`
lists are exactly those templates; `render` flattens one back to the string
the source operates on. -/

/-- One segment of a well-formed template: a literal or a named placeholder. -/
inductive Piece where
  | lit (s : String)
  | hole (n : String)

/-- Flatten a piece list to the character list of the template it denotes. -/
def renderL : List Piece → List Char
  | [] => []
  | Piece.lit s :: rest => s.data ++ renderL rest
  | Piece.hole n :: rest =>
      obrace :: obrace :: (n.data ++ (cbrace :: cbrace :: renderL rest))

/-- Flatten a piece list to the template string it denotes. -/
def render (ps : List Piece) : String := ⟨renderL ps⟩

/-- A character list with no brace characters. -/
def cleanB (l : List Char) : Bool :=
  l.all (fun c => !(c == obrace) && !(c == cbrace))

/-- Well-formedness of one piece: literals are brace-free, placeholder names
are brace-free and non-empty. -/
def wfPiece : Piece → Bool
  | Piece.lit s => cleanB s.data
  | Piece.hole n => cleanB n.data && !n.data.isEmpty

/-- Well-formedness of a whole template. -/
def wfTemplate (ps : List Piece) : Bool := ps.all wfPiece

/-- Cleanliness of a variable mapping: keys non-empty and brace-free,
values (after `value or ""`) brace-free. -/
def cleanVars (vars : Row) : Bool :=
  vars.all (fun kv =>
    cleanB kv.1.data && !kv.1.data.isEmpty && cleanB ((kv.2.getD "").data))

/-- Substituting one variable in a well-formed template: every placeholder
named `k` becomes the literal `v`, all other pieces are untouched. -/
def substPiece (k v : String) : Piece → Piece
  | Piece.lit s => Piece.lit s
  | Piece.hole n => if n = k then Piece.lit v else Piece.hole n

/-- The net effect of `fill_template` on one piece: a placeholder whose name
is bound in the mapping becomes its value (the first binding wins, `none`
becomes the empty string); an unbound placeholder survives; literals are
untouched. -/
def fillPiece (vars : Row) : Piece → Piece
  | Piece.lit s => Piece.lit s
  | Piece.hole n =>
    match List.lookup n vars with
    | some v => Piece.lit (v.getD "")
    | none => Piece.hole n

/-! ### The replacement scan acts on well-formed templates piecewise -/

theorem cleanB_mem {l : List Char} (h : cleanB l = true) :
    ∀ c ∈ l, c ≠ obrace ∧ c ≠ cbrace := by
  intro c hc
  have := List.all_eq_true.mp h c hc
  constructor
  · intro he; subst he; simp at this
  · intro he; subst he; simp at this

theorem noPre_of_ne :
    ∀ (as bs t : List Char), (∀ c ∈ as, c ≠ cbrace) → (∀ c ∈ bs, c ≠ cbrace) →
      as ≠ bs →
      (as ++ [cbrace, cbrace]).isPrefixOf (bs ++ cbrace :: cbrace :: t) = false := by
  intro as
  induction as with
  | nil =>
    intro bs t _ hbs hne
    cases bs with
    | nil => exact absurd rfl hne
    | cons b bs' =>
      have hb : b ≠ cbrace := hbs b (List.mem_cons_self b bs')
      simp [List.isPrefixOf]
      intro he
      exact absurd he.symm hb
  | cons a as' ih =>
    intro bs t has hbs hne
    cases bs with
    | nil =>
      have ha : a ≠ cbrace := has a (List.mem_cons_self a as')
      simp [List.isPrefixOf]
      intro he
      exact absurd he ha
    | cons b bs' =>
      by_cases hab : a = b
      · subst hab
        have has' : ∀ c ∈ as', c ≠ cbrace :=
          fun c hc => has c (List.mem_cons_of_mem a hc)
        have hbs' : ∀ c ∈ bs', c ≠ cbrace :=
          fun c hc => hbs c (List.mem_cons_of_mem a hc)
        have hne' : as' ≠ bs' := by
          intro he; exact hne (by rw [he])
        simp [List.isPrefixOf]
        exact ih bs' t has' hbs' hne'
      · simp [List.isPrefixOf]
        intro he
        exact absurd he hab

theorem isPrefixOf_append_self (l t : List Char) :
    l.isPrefixOf (l ++ t) = true :=
  isPrefixOf_iff.mpr (List.prefix_append l t)

theorem obrace_ne_cbrace : obrace ≠ cbrace := by decide

/-- One `str.replace` pass with the placeholder of `k` maps a well-formed
template to the same template with every `k`-hole substituted. -/
theorem replScan_render (k v : String) (hk : k.data ≠ [])
    (hkc : ∀ c ∈ k.data, c ≠ cbrace) :
    ∀ ps : List Piece, (∀ pc ∈ ps, wfPiece pc = true) →
      replScan obrace (obrace :: (k.data ++ [cbrace, cbrace])) v.data 0
          (renderL ps)
        = renderL (ps.map (substPiece k v)) := by
  intro ps
  induction ps with
  | nil => intro _; simp [renderL, replScan]
  | cons pc rest ih =>
    intro hwf
    have hwfpc : wfPiece pc = true := hwf pc (List.mem_cons_self pc rest)
    have hwfrest : ∀ q ∈ rest, wfPiece q = true :=
      fun q hq => hwf q (List.mem_cons_of_mem pc hq)
    cases pc with
    | lit s =>
      have hsc : ∀ c ∈ s.data, c ≠ obrace := by
        intro c hc
        exact (cleanB_mem hwfpc c hc).1
      calc replScan obrace (obrace :: (k.data ++ [cbrace, cbrace])) v.data 0
              (renderL (Piece.lit s :: rest))
          = s.data ++ replScan obrace (obrace :: (k.data ++ [cbrace, cbrace]))
              v.data 0 (renderL rest) := by
            rw [renderL]
            exact replScan_append_of_ne _ _ _ s.data hsc _
        _ = s.data ++ renderL (rest.map (substPiece k v)) := by rw [ih hwfrest]
        _ = renderL ((Piece.lit s :: rest).map (substPiece k v)) := by
            simp [renderL, substPiece]
    | hole n =>
      have hnc : cleanB n.data = true := by
        simp [wfPiece] at hwfpc; exact hwfpc.1
      have hnn : n.data ≠ [] := by
        simp [wfPiece, List.isEmpty_iff] at hwfpc; exact hwfpc.2
      by_cases hnk : n = k
      · subst hnk
        have hsplit : renderL (Piece.hole n :: rest)
            = (obrace :: obrace :: (n.data ++ [cbrace, cbrace])) ++ renderL rest := by
          simp [renderL]
        have hpre : (obrace :: obrace :: (n.data ++ [cbrace, cbrace])).isPrefixOf
            ((obrace :: obrace :: (n.data ++ [cbrace, cbrace])) ++ renderL rest)
              = true := isPrefixOf_append_self _ _
        have hstep : replScan obrace (obrace :: (n.data ++ [cbrace, cbrace]))
            v.data 0 (renderL (Piece.hole n :: rest))
            = v.data ++ replScan obrace (obrace :: (n.data ++ [cbrace, cbrace]))
                v.data (obrace :: (n.data ++ [cbrace, cbrace])).length
                (obrace :: (n.data ++ (cbrace :: cbrace :: renderL rest))) := by
          rw [renderL, replScan]
          have : (obrace :: obrace :: (n.data ++ [cbrace, cbrace])).isPrefixOf
              (obrace :: obrace :: (n.data ++ (cbrace :: cbrace :: renderL rest)))
                = true := by
            have h2 : obrace :: obrace :: (n.data ++ (cbrace :: cbrace :: renderL rest))
                = (obrace :: obrace :: (n.data ++ [cbrace, cbrace])) ++ renderL rest := by
              simp
            rw [h2]
            exact isPrefixOf_append_self _ _
          simp only [this, if_pos]
        rw [hstep, replScan_skip_drop]
        have hdrop : (obrace :: (n.data ++ (cbrace :: cbrace :: renderL rest))).drop
            (obrace :: (n.data ++ [cbrace, cbrace])).length = renderL rest := by
          have h2 : obrace :: (n.data ++ (cbrace :: cbrace :: renderL rest))
              = (obrace :: (n.data ++ [cbrace, cbrace])) ++ renderL rest := by
            simp
          rw [h2, List.drop_left]
        rw [hdrop, ih hwfrest]
        simp [renderL, substPiece]
      · have hpre0 : (obrace :: obrace :: (k.data ++ [cbrace, cbrace])).isPrefixOf
            (obrace :: obrace :: (n.data ++ (cbrace :: cbrace :: renderL rest)))
              = false := by
          have hinner : (k.data ++ [cbrace, cbrace]).isPrefixOf
              (n.data ++ cbrace :: cbrace :: renderL rest) = false := by
            have hncc : ∀ c ∈ n.data, c ≠ cbrace := by
              intro c hc; exact (cleanB_mem hnc c hc).2
            exact noPre_of_ne k.data n.data (renderL rest) hkc hncc
              (fun he => hnk (String.ext he.symm))
          simp [List.isPrefixOf, hinner]
        have hpre1 : (obrace :: obrace :: (k.data ++ [cbrace, cbrace])).isPrefixOf
            (obrace :: (n.data ++ (cbrace :: cbrace :: renderL rest))) = false := by
          cases hn : n.data with
          | nil => exact absurd hn hnn
          | cons b bs =>
            have hb : b ≠ obrace := by
              have := (cleanB_mem hnc b (by rw [hn]; exact List.mem_cons_self b bs)).1
              exact this
            simp [List.isPrefixOf, hn]
            intro he
            exact absurd he.symm hb
        have hncob : ∀ c ∈ n.data, c ≠ obrace := by
          intro c hc; exact (cleanB_mem hnc c hc).1
        have hcb0 : (obrace :: obrace :: (k.data ++ [cbrace, cbrace])).isPrefixOf
            (cbrace :: cbrace :: renderL rest) = false := by
          simp [List.isPrefixOf]
          intro he
          exact absurd he obrace_ne_cbrace
        have hcb1 : (obrace :: obrace :: (k.data ++ [cbrace, cbrace])).isPrefixOf
            (cbrace :: renderL rest) = false := by
          simp [List.isPrefixOf]
          intro he
          exact absurd he obrace_ne_cbrace
        calc replScan obrace (obrace :: (k.data ++ [cbrace, cbrace])) v.data 0
                (renderL (Piece.hole n :: rest))
            = obrace :: replScan obrace (obrace :: (k.data ++ [cbrace, cbrace]))
                v.data 0 (obrace :: (n.data ++ (cbrace :: cbrace :: renderL rest))) := by
              rw [renderL, replScan, hpre0]
              simp
          _ = obrace :: obrace :: replScan obrace (obrace :: (k.data ++ [cbrace, cbrace]))
                v.data 0 (n.data ++ (cbrace :: cbrace :: renderL rest)) := by
              rw [replScan, hpre1]
              simp
          _ = obrace :: obrace :: (n.data ++ replScan obrace
                (obrace :: (k.data ++ [cbrace, cbrace])) v.data 0
                (cbrace :: cbrace :: renderL rest)) := by
              rw [replScan_append_of_ne _ _ _ n.data hncob]
          _ = obrace :: obrace :: (n.data ++ (cbrace :: replScan obrace
                (obrace :: (k.data ++ [cbrace, cbrace])) v.data 0
                (cbrace :: renderL rest))) := by
              rw [replScan, hcb0]
              simp
          _ = obrace :: obrace :: (n.data ++ (cbrace :: cbrace :: replScan obrace
                (obrace :: (k.data ++ [cbrace, cbrace])) v.data 0 (renderL rest))) := by
              rw [replScan, hcb1]
              simp
          _ = renderL ((Piece.hole n :: rest).map (substPiece k v)) := by
              rw [ih hwfrest]
              simp [renderL, substPiece, hnk]

theorem fillPiece_nil (pc : Piece) : fillPiece [] pc = pc := by
  cases pc <;> rfl

theorem map_fillPiece_nil (ps : List Piece) : ps.map (fillPiece []) = ps := by
  induction ps with
  | nil => rfl
  | cons pc rest ih => simp [fillPiece_nil, ih]

theorem fillPiece_substPiece (k : String) (v : Option String) (rest : Row)
    (pc : Piece) :
    fillPiece rest (substPiece k (v.getD "") pc) = fillPiece ((k, v) :: rest) pc := by
  cases pc with
  | lit s => rfl
  | hole n =>
    by_cases h : n = k
    · subst h
      simp [substPiece, fillPiece, List.lookup]
    · have hbeq : (n == k) = false := beq_eq_false_iff_ne.mpr h
      simp [substPiece, fillPiece, List.lookup, h, hbeq]

theorem wfPiece_substPiece (k v : String) (hv : cleanB v.data = true)
    (pc : Piece) (h : wfPiece pc = true) : wfPiece (substPiece k v pc) = true := by
  cases pc with
  | lit s => exact h
  | hole n =>
    by_cases hnk : n = k
    · simp [substPiece, hnk, wfPiece, hv]
    · simpa [substPiece, hnk] using h

theorem fill_render :
    ∀ (vars : Row) (ps : List Piece), wfTemplate ps = true →
      cleanVars vars = true →
      fill_template (render ps) vars = render (ps.map (fillPiece vars)) := by
  intro vars
  induction vars with
  | nil =>
    intro ps _ _
    show render ps = render (ps.map (fillPiece []))
    rw [map_fillPiece_nil]
  | cons kv rest ih =>
    intro ps hwf hcv
    simp only [cleanVars, List.all_cons, Bool.and_eq_true] at hcv
    obtain ⟨⟨⟨hkc, hkne⟩, hvc⟩, hrest⟩ := hcv
    have hrest' : cleanVars rest = true := hrest
    have hwfl : ∀ pc ∈ ps, wfPiece pc = true := List.all_eq_true.mp hwf
    have hkne' : kv.1.data ≠ [] := by
      simpa [List.isEmpty_iff] using hkne
    have hkcc : ∀ c ∈ kv.1.data, c ≠ cbrace := fun c hc => (cleanB_mem hkc c hc).2
    have hstep : pyReplace (render ps) (placeholder kv.1) (kv.2.getD "")
        = render (ps.map (substPiece kv.1 (kv.2.getD ""))) := by
      show String.mk
          (replaceAll (placeholder kv.1).data (kv.2.getD "").data (render ps).data) = _
      rw [placeholder_data]
      show String.mk (replScan obrace (obrace :: (kv.1.data ++ [cbrace, cbrace]))
        (kv.2.getD "").data 0 (renderL ps)) = _
      rw [replScan_render kv.1 (kv.2.getD "") hkne' hkcc ps hwfl]
      rfl
    have hunfold : fill_template (render ps) (kv :: rest)
        = fill_template (pyReplace (render ps) (placeholder kv.1) (kv.2.getD "")) rest :=
      rfl
    rw [hunfold, hstep]
    have hwf' : wfTemplate (ps.map (substPiece kv.1 (kv.2.getD ""))) = true := by
      apply List.all_eq_true.mpr
      intro pc hpc
      obtain ⟨q, hq, rfl⟩ := List.mem_map.mp hpc
      exact wfPiece_substPiece _ _ hvc q (hwfl q hq)
    rw [ih _ hwf' hrest']
    congr 1
    rw [List.map_map]
    apply List.map_congr_left
    intro pc _
    exact fillPiece_substPiece kv.1 kv.2 rest pc

/-! ### `run_evals` (source lines 107-171)

The external completion call is modelled as a function from the filled
prompt to either the response text or the raised exception's message
(`client.messages.create` with fixed zero temperature and a 1024-token cap
has no other input that varies per row).  Printing is not modelled. -/

/-- One entry of the `failures` list built by `run_evals`: an API error
carries the exception message, a mismatch carries the expected spec and the
first 500 characters of the actual output.  Both carry the test name and the
row's variables. -/
inductive EvalFailure where
  | apiError (test : String) (err : String) (vars : Row)
  | mismatch (test : String) (expected : String) (actual : String) (vars : Row)

/-- The value of `row.pop('expected_output', '')` as seen by `check_output`:
the stored string, or the empty string when the field is absent or `None`
(Python treats `None` and `''` identically here via `if not expected`). -/
def expectedOf (row : Row) : String :=
  match List.lookup "expected_output" row with
  | some (some s) => s
  | _ => ""

/-- The variables left in the row after `row.pop('expected_output', ...)`:
the first `expected_output` entry is removed, order is preserved. -/
def varsOf (row : Row) : Row :=
  row.eraseP (fun kv => kv.1 == "expected_output")

/-- The row loop of `run_evals` with its three accumulators (`passed`,
`total`, `failures`), exactly mirroring the source: count the row, pop the
expected spec, fill the template, call the API; an error appends an
`apiError` failure and continues; otherwise `check_output` either bumps
`passed` or appends a `mismatch` failure. -/
def runEvalsAux (api : String → Except String String) (template : String) :
    Nat → Nat → List EvalFailure → List Row → Nat × Nat × List EvalFailure
  | passed, total, failures, [] => (passed, total, failures)
  | passed, total, failures, row :: rest =>
    let total' := total + 1
    let testName := "Test " ++ toString total'
    let expected := expectedOf row
    let vars := varsOf row
    let prompt := fill_template template vars
    match api prompt with
    | Except.error e =>
      runEvalsAux api template passed total'
        (failures ++ [EvalFailure.apiError testName e vars]) rest
    | Except.ok actual =>
      if (check_output actual expected).1 then
        runEvalsAux api template (passed + 1) total' failures rest
      else
        runEvalsAux api template passed total'
          (failures ++ [EvalFailure.mismatch testName expected
            (strTake actual 500) vars]) rest

/-- `run_evals(dataset, prompt, model)` over an already-parsed row list:
returns `(passed, total, failures)`. -/
def run_evals (api : String → Except String String) (template : String)
    (rows : List Row) : Nat × Nat × List EvalFailure :=
  runEvalsAux api template 0 0 [] rows

/-- Whether one row ends up counted as passed: the API call must succeed and
`check_output` must accept the response. -/
def rowPasses (api : String → Except String String) (template : String)
    (row : Row) : Bool :=
  match api (fill_template template (varsOf row)) with
  | Except.error _ => false
  | Except.ok actual => (check_output actual (expectedOf row)).1

/-- The number of rows of a list that end up counted as passed. -/
def passedCount (api : String → Except String String) (template : String) :
    List Row → Nat
  | [] => 0
  | row :: rest =>
    (if rowPasses api template row then 1 else 0) + passedCount api template rest

/-- The failure entries produced for a row list when `tot` rows have already
been processed (test names continue the numbering). -/
def failuresFrom (api : String → Except String String) (template : String) :
    Nat → List Row → List EvalFailure
  | _, [] => []
  | tot, row :: rest =>
    match api (fill_template template (varsOf row)) with
    | Except.error e =>
      EvalFailure.apiError ("Test " ++ toString (tot + 1)) e (varsOf row)
        :: failuresFrom api template (tot + 1) rest
    | Except.ok actual =>
      if (check_output actual (expectedOf row)).1 then
        failuresFrom api template (tot + 1) rest
      else
        EvalFailure.mismatch ("Test " ++ toString (tot + 1)) (expectedOf row)
          (strTake actual 500) (varsOf row) :: failuresFrom api template (tot + 1) rest

theorem runEvalsAux_eq (api : String → Except String String) (template : String) :
    ∀ (rows : List Row) (passed total : Nat) (failures : List EvalFailure),
      runEvalsAux api template passed total failures rows
        = (passed + passedCount api template rows, total + rows.length,
            failures ++ failuresFrom api template total rows) := by
  intro rows
  induction rows with
  | nil =>
    intro p t f
    simp [runEvalsAux, passedCount, failuresFrom]
  | cons row rest ih =>
    intro p t f
    cases hapi : api (fill_template template (varsOf row)) with
    | error e =>
      have hpass : rowPasses api template row = false := by
        simp [rowPasses, hapi]
      simp only [runEvalsAux, hapi, passedCount, failuresFrom, hpass]
      rw [ih]
      refine Prod.ext ?_ (Prod.ext ?_ ?_)
      · simp
      · simp
        omega
      · simp [List.append_assoc]
    | ok actual =>
      have hpass : rowPasses api template row = (check_output actual (expectedOf row)).1 := by
        simp [rowPasses, hapi]
      cases hchk : (check_output actual (expectedOf row)).1 with
      | true =>
        simp only [runEvalsAux, hapi, hchk, passedCount, failuresFrom, hpass,
          if_true]
        rw [ih]
        refine Prod.ext ?_ (Prod.ext ?_ ?_)
        · simp
          omega
        · simp
          omega
        · simp
      | false =>
        simp only [runEvalsAux, hapi, hchk, passedCount, failuresFrom, hpass,
          if_false, Bool.false_eq_true]
        rw [ih]
        refine Prod.ext ?_ (Prod.ext ?_ ?_)
        · simp
        · simp
          omega
        · simp [List.append_assoc]

theorem run_evals_eq (api : String → Except String String) (template : String)
    (rows : List Row) :
    run_evals api template rows
      = (passedCount api template rows, rows.length,
          failuresFrom api template 0 rows) := by
  have h := runEvalsAux_eq api template rows 0 0 []
  simpa [run_evals] using h

/-! ### `dry_run_evals` (source lines 71-104) and `main` (lines 174-244)

Dry run renders each row's prompt and a 200-character preview for display
and counts rows; it takes no completion provider at all.  `main`'s file
existence checks are filesystem I/O and stay outside the embedding; the rest
of its control flow (dry-run exit, missing-credential exit, threshold
decision) is `mainRun` below. -/

/-- The row loop of `dry_run_evals`: per row the expected spec, the
variables, the filled prompt and its bounded preview are computed (the
source prints them), and the counter is incremented.  Returns the count. -/
def dry_run_evals (template : String) (rows : List Row) : Nat :=
  rows.foldl
    (fun total row =>
      let _expected := expectedOf row
      let vars := varsOf row
      let prompt := fill_template template vars
      let _preview := strTake prompt 200
      total + 1)
    0

/-- `pass_rate = 100 * passed // total if total > 0 else 0` (source line 231):
integer floor division, zero-guarded. -/
def pass_rate (passed total : Nat) : Nat :=
  if total > 0 then 100 * passed / total else 0

/-- The exit decision of `main` (source lines 235-244): exit code 0 when the
pass rate reaches the threshold, else 1.  The failures list only affects the
printed message, never the exit code. -/
def decideExit (passed total threshold : Nat) : Nat :=
  if pass_rate passed total ≥ threshold then 0 else 1

/-- The control flow of `main` after argument parsing and file checks:
dry-run mode runs `dry_run_evals` and exits 0 before the credential is ever
consulted; otherwise a missing credential exits 1; otherwise `run_evals`
runs and the threshold decides the exit code. -/
def mainRun (dryRun apiKeySet : Bool) (api : String → Except String String)
    (template : String) (rows : List Row) (threshold : Nat) : Nat :=
  if dryRun then
    let _total := dry_run_evals template rows
    0
  else if !apiKeySet then 1
  else
    let r := run_evals api template rows
    decideExit r.1 r.2.1 threshold

theorem dry_run_evals_eq_length (template : String) (rows : List Row) :
    dry_run_evals template rows = rows.length := by
  have h : ∀ (l : List Row) (n : Nat),
      List.foldl
        (fun total row =>
          let _expected := expectedOf row
          let vars := varsOf row
          let prompt := fill_template template vars
          let _preview := strTake prompt 200
          total + 1)
        n l = n + l.length := by
    intro l
    induction l with
    | nil => intro n; simp
    | cons r rest ih =>
      intro n
      rw [List.foldl_cons]
      show List.foldl _ (n + 1) rest = n + (rest.length + 1)
      rw [ih (n + 1)]
      omega
  have h0 := h rows 0
  simpa [dry_run_evals] using h0

/-! ### The dataset iterator (source lines 120-123 and 80-83)

The source opens the CSV file and iterates `csv.DictReader(f)`.  CSV content
is modelled as a list of already-split records (quoting is the `csv`
module's concern, not this repository's).  `csv.DictReader` takes the first
record as the header — an empty source has no header and yields no rows,
without any error — and pairs each later record with the header names,
padding missing trailing fields with `None`.  The spec names a distinguished
`DatasetError`; no such type exists anywhere in the source, so `readDataset`
gives the iteration that error type in its result only to make the spec's
claim statable: the code's iteration always succeeds. -/

/-- The spec's distinguished dataset error value.  The source never defines
or raises it; it appears here only so the spec's claim can be stated. -/
inductive DatasetError where
  | unreadable
  | malformed

/-- Pair header names with one record's fields, `None`-padding missing
trailing fields (the `restval=None` behaviour of `csv.DictReader`; extra
fields beyond the header go under the `restkey` and are dropped here as no
template variable can name them). -/
def mkRow : List String → List String → Row
  | [], _ => []
  | h :: hs, [] => (h, none) :: mkRow hs []
  | h :: hs, v :: vs => (h, some v) :: mkRow hs vs

/-- `csv.DictReader` over split records: first record is the header, each
later record becomes a row; no header means no rows. -/
def dictReader : List (List String) → List Row
  | [] => []
  | header :: dataRows => dataRows.map (mkRow header)

/-- The outcome of iterating the dataset, typed with the spec's
`DatasetError` so the spec's failure claim can be stated: the code's
iteration never produces the error. -/
def readDataset (content : List (List String)) : Except DatasetError (List Row) :=
  Except.ok (dictReader content)

/-! ### Characterisation of the `check_output` loop -/

theorem findAlt_eq_find (al : String) :
    ∀ l : List String,
      findAlt al l
        = match l.find? (fun alt => decide ((pyLower alt).data <:+: al.data)) with
          | some alt => (true, some alt)
          | none => (false, none) := by
  intro l
  induction l with
  | nil => simp [findAlt, List.find?]
  | cons alt rest ih =>
    rw [findAlt]
    have hd : pyContains al (pyLower alt)
        = decide ((pyLower alt).data <:+: al.data) := by
      rw [pyContains, listContains_eq_decide]
    rw [hd]
    by_cases h : (pyLower alt).data <:+: al.data
    · simp [List.find?, h]
    · simp [List.find?, h, ih]

theorem findAlt_fst_of_mem_empty (al : String) :
    ∀ l : List String, "" ∈ l → (findAlt al l).1 = true := by
  intro l
  induction l with
  | nil => intro h; cases h
  | cons alt rest ih =>
    intro hmem
    rw [findAlt]
    cases hb : pyContains al (pyLower alt) with
    | true => simp [hb]
    | false =>
      rcases List.mem_cons.mp hmem with he | hm
      · have htrue : pyContains al (pyLower "") = true := by
          show listContains (pyLower "").data al.data = true
          exact listContains_nil_left al.data
        rw [← he] at hb
        rw [htrue] at hb
        cases hb
      · simp [hb]
        exact ih hm

/-! ### Decomposition of the run over a split row list -/

theorem passedCount_append (api : String → Except String String)
    (template : String) :
    ∀ l1 l2 : List Row,
      passedCount api template (l1 ++ l2)
        = passedCount api template l1 + passedCount api template l2 := by
  intro l1 l2
  induction l1 with
  | nil => simp [passedCount]
  | cons row rest ih =>
    simp only [List.cons_append, passedCount, List.append_eq]
    rw [ih]
    omega

theorem failuresFrom_append (api : String → Except String String)
    (template : String) :
    ∀ (l1 l2 : List Row) (tot : Nat),
      failuresFrom api template tot (l1 ++ l2)
        = failuresFrom api template tot l1
            ++ failuresFrom api template (tot + l1.length) l2 := by
  intro l1
  induction l1 with
  | nil => intro l2 tot; simp [failuresFrom]
  | cons row rest ih =>
    intro l2 tot
    have harith : tot + 1 + rest.length = tot + (rest.length + 1) := by omega
    cases hapi : api (fill_template template (varsOf row)) with
    | error e =>
      simp only [List.cons_append, failuresFrom, hapi, List.length_cons,
        List.append_eq]
      rw [ih, harith]
    | ok actual =>
      cases hchk : (check_output actual (expectedOf row)).1 with
      | true =>
        simp only [List.cons_append, failuresFrom, hapi, hchk, if_true,
          List.length_cons, List.append_eq]
        rw [ih, harith]
      | false =>
        simp only [List.cons_append, failuresFrom, hapi, hchk, if_false,
          Bool.false_eq_true, List.length_cons, List.append_eq]
        rw [ih, harith]

/-! ### Idempotence under no residual placeholders -/

theorem fill_template_eq_self_of_no_placeholder :
    ∀ (vars : Row) (s : String),
      (∀ kv ∈ vars, listContains (placeholder kv.1).data s.data = false) →
      fill_template s vars = s := by
  intro vars
  induction vars with
  | nil => intro s _; rfl
  | cons kv rest ih =>
    intro s hno
    have hhead := hno kv (List.mem_cons_self kv rest)
    have hne : (placeholder kv.1).data ≠ [] := by
      simp [placeholder_data]
    have hrepl : pyReplace s (placeholder kv.1) (kv.2.getD "") = s :=
      pyReplace_eq_self_of_not_contains s _ _ hne hhead
    have hunfold : fill_template s (kv :: rest)
        = fill_template (pyReplace s (placeholder kv.1) (kv.2.getD "")) rest := rfl
    rw [hunfold, hrepl]
    exact ih s (fun kv2 h2 => hno kv2 (List.mem_cons_of_mem kv h2))

/-! ## The claims -/

/-- C1: For every run in execution mode, the overall decision is exit code 0
iff the computed integer pass rate reaches the configured threshold (the
failures list never influences the exit code, only the message), and exit
code 1 iff it falls below; in particular passed=3, total=4 gives pass rate
75, so threshold 70 yields exit 0 and threshold 80 yields exit 1. -/
theorem claim_c1_threshold_decision :
    ∀ (api : String → Except String String) (template : String)
      (rows : List Row) (threshold : Nat),
      (mainRun false true api template rows threshold = 0 ↔
        pass_rate (run_evals api template rows).1
          (run_evals api template rows).2.1 ≥ threshold) ∧
      (mainRun false true api template rows threshold = 1 ↔
        pass_rate (run_evals api template rows).1
          (run_evals api template rows).2.1 < threshold) ∧
      decideExit 3 4 70 = 0 ∧ decideExit 3 4 80 = 1 ∧ pass_rate 3 4 = 75 := by
  intro api template rows threshold
  have hmain : mainRun false true api template rows threshold
      = decideExit (run_evals api template rows).1
          (run_evals api template rows).2.1 threshold := rfl
  refine ⟨?_, ?_, by decide, by decide, by decide⟩
  · rw [hmain]
    by_cases h : pass_rate (run_evals api template rows).1
        (run_evals api template rows).2.1 ≥ threshold
    · simp [decideExit, h]
    · simp [decideExit, h]
  · rw [hmain]
    by_cases h : pass_rate (run_evals api template rows).1
        (run_evals api template rows).2.1 ≥ threshold
    · simp [decideExit, h]
    · simp [decideExit, h]
      omega

/-- C2: For all passed ≤ total, the pass rate is the integer floor of
`100 * passed / total` when total is positive and is defined as 0 when total
is zero (the guard makes the function total, so no division-by-zero error
can occur); 3 of 4 gives 75. -/
theorem claim_c2_pass_rate (passed total : Nat) (h : passed ≤ total) :
    (0 < total → pass_rate passed total = 100 * passed / total) ∧
    (total = 0 → pass_rate passed total = 0) ∧
    pass_rate 3 4 = 75 := by
  refine ⟨?_, ?_, by decide⟩
  · intro ht
    simp [pass_rate, ht]
  · intro ht
    simp [pass_rate, ht]

/-- C2 witness: the theorem instantiated at passed=3, total=4. -/
theorem claim_c2_pass_rate_witness :
    3 ≤ 4 ∧ ((0 < 4 → pass_rate 3 4 = 100 * 3 / 4) ∧
      (4 = 0 → pass_rate 3 4 = 0) ∧ pass_rate 3 4 = 75) :=
  ⟨by decide, claim_c2_pass_rate 3 4 (by decide)⟩

/-- C3: For a non-empty spec, `check_output` splits on the pipe, trims each
alternative, and returns pass with the first alternative (in declaration
order) that occurs case-insensitively in the actual output — equivalently,
it passes iff ANY alternative occurs (OR semantics). -/
theorem claim_c3_first_match (actual expected : String) (h : expected ≠ "") :
    (check_output actual expected
      = match (alternativesOf expected).find?
            (fun alt => decide ((pyLower alt).data <:+: (pyLower actual).data)) with
          | some alt => (true, some alt)
          | none => (false, none)) ∧
    ((check_output actual expected).1 = true ↔
      ∃ alt ∈ alternativesOf expected,
        (pyLower alt).data <:+: (pyLower actual).data) := by
  have hco : check_output actual expected
      = findAlt (pyLower actual) (alternativesOf expected) := by
    simp [check_output, h]
  constructor
  · rw [hco, findAlt_eq_find]
  · rw [hco, findAlt_eq_find]
    cases hf : (alternativesOf expected).find?
        (fun alt => decide ((pyLower alt).data <:+: (pyLower actual).data)) with
    | none =>
      constructor
      · intro hfalse
        exact absurd hfalse (by decide)
      · rintro ⟨alt, hmem, hinf⟩
        have hnone := List.find?_eq_none.mp hf alt hmem
        simp at hnone
        exact absurd hinf hnone
    | some alt =>
      constructor
      · intro _
        have hmem := List.mem_of_find?_eq_some hf
        have hp := List.find?_some hf
        simp at hp
        exact ⟨alt, hmem, hp⟩
      · intro _
        rfl

/-- C3 witness: on the spec's own example, the first matching alternative of
`"blue|green"` inside `"The sky is BLUE today"` is `"blue"`. -/
theorem claim_c3_first_match_witness :
    ("blue|green" ≠ "") ∧
      check_output "The sky is BLUE today" "blue|green" = (true, some "blue") := by
  refine ⟨by decide, ?_⟩
  rw [(claim_c3_first_match "The sky is BLUE today" "blue|green" (by decide)).1]
  decide

/-- C4: An empty expected-output spec means no assertion: `check_output`
passes with no matched term for every actual output. -/
theorem claim_c4_empty_spec_passes :
    ∀ actual : String, check_output actual "" = (true, none) := by
  intro actual
  simp [check_output]

/-- C5: In execution mode, a row whose completion call raises is caught
locally: the run still returns (no abort), the row contributes an
`apiError` failure entry carrying the error message and the row's variables
(a shape distinct from a `mismatch` entry's expected/actual text), the
passed count gets no contribution from that row, and every row before and
after it is still processed (the total is the full row count and the later
failure entries are present with their numbering continued). -/
theorem claim_c5_api_error_fail_soft
    (api : String → Except String String) (template : String)
    (pre : List Row) (row : Row) (post : List Row) (e : String)
    (h : api (fill_template template (varsOf row)) = Except.error e) :
    run_evals api template (pre ++ row :: post)
      = (passedCount api template pre + passedCount api template post,
          pre.length + 1 + post.length,
          failuresFrom api template 0 pre
            ++ EvalFailure.apiError ("Test " ++ toString (pre.length + 1)) e
                (varsOf row)
              :: failuresFrom api template (pre.length + 1) post) := by
  rw [run_evals_eq, passedCount_append, failuresFrom_append]
  have hrow : rowPasses api template row = false := by
    simp [rowPasses, h]
  refine Prod.ext ?_ (Prod.ext ?_ ?_)
  · show passedCount api template pre + passedCount api template (row :: post) = _
    simp [passedCount, hrow]
  · show (pre ++ row :: post).length = _
    simp
    omega
  · show failuresFrom api template 0 pre
        ++ failuresFrom api template (0 + pre.length) (row :: post) = _
    have hzero : 0 + pre.length = pre.length := by omega
    rw [hzero]
    have hcons : failuresFrom api template pre.length (row :: post)
        = EvalFailure.apiError ("Test " ++ toString (pre.length + 1)) e (varsOf row)
            :: failuresFrom api template (pre.length + 1) post := by
      simp [failuresFrom, h]
    rw [hcons]

/-- C5 witness: a three-row run whose provider always errors, split around
its middle row. -/
theorem claim_c5_api_error_fail_soft_witness :
    run_evals (fun _ => Except.error "boom") "T"
        ([[("x", some "1")]] ++ [("x", some "2")] :: [[("x", some "3")]])
      = (passedCount (fun _ => Except.error "boom") "T" [[("x", some "1")]]
          + passedCount (fun _ => Except.error "boom") "T" [[("x", some "3")]],
          1 + 1 + 1,
          failuresFrom (fun _ => Except.error "boom") "T" 0 [[("x", some "1")]]
            ++ EvalFailure.apiError ("Test " ++ toString (1 + 1)) "boom"
                (varsOf [("x", some "2")])
              :: failuresFrom (fun _ => Except.error "boom") "T" (1 + 1)
                  [[("x", some "3")]]) :=
  claim_c5_api_error_fail_soft (fun _ => Except.error "boom") "T"
    [[("x", some "1")]] [("x", some "2")] [[("x", some "3")]] "boom" rfl

/-- C6 counterexample: with the mapping B ↦ "y", A ↦ "\x7b\x7bB\x7d\x7d"
(processed in that order, as `fill_template` processes `dict` items), the
output of filling "go \x7b\x7bA\x7d\x7d" is "go \x7b\x7bB\x7d\x7d": it still
contains the placeholder of the mapped variable B, which was not replaced by
B's value "y" — so it is not the case that every occurrence of each mapped
variable's placeholder is replaced by its value, for every template and
mapping. -/
theorem claim_c6_counterexample :
    fill_template "go \x7b\x7bA\x7d\x7d"
        [("B", some "y"), ("A", some "\x7b\x7bB\x7d\x7d")]
      = "go \x7b\x7bB\x7d\x7d"
    ∧ listContains (placeholder "B").data
        (fill_template "go \x7b\x7bA\x7d\x7d"
          [("B", some "y"), ("A", some "\x7b\x7bB\x7d\x7d")]).data = true
    ∧ List.lookup "B" [("B", some "y"), ("A", some "\x7b\x7bB\x7d\x7d")]
        = some (some "y")
    ∧ fill_template "go \x7b\x7bA\x7d\x7d"
        [("B", some "y"), ("A", some "\x7b\x7bB\x7d\x7d")]
      ≠ "go y" := by
  refine ⟨by decide, by decide, by decide, by decide⟩

/-- C6 (amended): for well-formed templates — alternations of brace-free
literals and placeholders with non-empty brace-free names, the spec's own
"unambiguous and non-nested" invariant — and mappings with non-empty
brace-free keys and brace-free values, `fill_template` replaces every
placeholder of a mapped variable by that variable's value (the empty string
for a `None` or empty value, the first binding winning), leaves every
placeholder with no corresponding variable unchanged, and is total (it
cannot raise).  Without the brace-freeness conditions a substituted value
can introduce or reconstruct a mapped placeholder that the pass leaves
unreplaced. -/
theorem claim_c6_wellformed_fill (ps : List Piece) (vars : Row)
    (hwf : wfTemplate ps = true) (hcv : cleanVars vars = true) :
    fill_template (render ps) vars = render (ps.map (fillPiece vars)) :=
  fill_render vars ps hwf hcv

/-- C6 witness: a template with a bound placeholder, an unbound placeholder
and a `None`-valued placeholder. -/
theorem claim_c6_wellformed_fill_witness :
    (wfTemplate [Piece.lit "Hello ", Piece.hole "NAME", Piece.lit ", ",
        Piece.hole "MISSING", Piece.hole "EMPTY"] = true
      ∧ cleanVars [("NAME", some "World"), ("EMPTY", none)] = true)
    ∧ fill_template
        (render [Piece.lit "Hello ", Piece.hole "NAME", Piece.lit ", ",
          Piece.hole "MISSING", Piece.hole "EMPTY"])
        [("NAME", some "World"), ("EMPTY", none)]
      = render ([Piece.lit "Hello ", Piece.hole "NAME", Piece.lit ", ",
          Piece.hole "MISSING", Piece.hole "EMPTY"].map
            (fillPiece [("NAME", some "World"), ("EMPTY", none)])) :=
  ⟨⟨by decide, by decide⟩,
    claim_c6_wellformed_fill
      [Piece.lit "Hello ", Piece.hole "NAME", Piece.lit ", ",
        Piece.hole "MISSING", Piece.hole "EMPTY"]
      [("NAME", some "World"), ("EMPTY", none)] (by decide) (by decide)⟩

/-- C7 counterexample: with B ↦ "x" and A ↦ "\x7b\x7bB\x7d\x7d", filling
"\x7b\x7bA\x7d\x7d" once yields "\x7b\x7bB\x7d\x7d" but filling twice yields
"x": `fill_template` is not idempotent for every template and mapping. -/
theorem claim_c7_counterexample :
    fill_template
        (fill_template "\x7b\x7bA\x7d\x7d"
          [("B", some "x"), ("A", some "\x7b\x7bB\x7d\x7d")])
        [("B", some "x"), ("A", some "\x7b\x7bB\x7d\x7d")]
      ≠ fill_template "\x7b\x7bA\x7d\x7d"
          [("B", some "x"), ("A", some "\x7b\x7bB\x7d\x7d")] := by
  decide

/-- C7 (amended): filling twice with the same mapping equals filling once
whenever the once-filled result contains no mapped variable's placeholder —
the unresolved-placeholders-left-intact argument is sound only under that
proviso, because a substituted value can introduce a mapped placeholder
(see the counterexample) which a second fill then expands. -/
theorem claim_c7_idempotent_of_no_residual (template : String) (vars : Row)
    (h : vars.all (fun kv =>
      !listContains (placeholder kv.1).data
        (fill_template template vars).data) = true) :
    fill_template (fill_template template vars) vars
      = fill_template template vars := by
  apply fill_template_eq_self_of_no_placeholder
  intro kv hkv
  have hb := List.all_eq_true.mp h kv hkv
  simpa using hb

/-- C7 witness: the theorem applied to the template "Hi \x7b\x7bA\x7d\x7d"
with A ↦ "there", whose once-filled result "Hi there" has no residual
placeholder. -/
theorem claim_c7_idempotent_of_no_residual_witness :
    (([("A", some "there")] : Row).all (fun kv =>
      !listContains (placeholder kv.1).data
        (fill_template "Hi \x7b\x7bA\x7d\x7d" [("A", some "there")]).data) = true)
    ∧ fill_template
        (fill_template "Hi \x7b\x7bA\x7d\x7d" [("A", some "there")])
        [("A", some "there")]
      = fill_template "Hi \x7b\x7bA\x7d\x7d" [("A", some "there")] :=
  ⟨by decide,
    claim_c7_idempotent_of_no_residual "Hi \x7b\x7bA\x7d\x7d"
      [("A", some "there")] (by decide)⟩

/-- C8: Preview (dry-run) mode returns the total number of dataset rows,
exits 0, and its behaviour is a function of the template and rows alone:
it is identical for any two completion providers and any two credential
states, because the provider is never consulted (the dry-run branch of
`mainRun` does not mention it) and the credential check is skipped. -/
theorem claim_c8_dry_run (template : String) (rows : List Row)
    (threshold : Nat) (api api2 : String → Except String String)
    (key key2 : Bool) :
    dry_run_evals template rows = rows.length
      ∧ mainRun true key api template rows threshold = 0
      ∧ mainRun true key api template rows threshold
          = mainRun true key2 api2 template rows threshold :=
  ⟨dry_run_evals_eq_length template rows, rfl, rfl⟩

/-- C9 counterexample: the iteration underlying `run_evals` and
`dry_run_evals` never produces a `DatasetError`: a source with no records at
all (hence no header row — the spec's own example of malformed input)
succeeds with zero rows, and a source whose only record is data likewise
succeeds (that record is silently consumed as the header). -/
theorem claim_c9_counterexample :
    readDataset [] = Except.ok []
      ∧ readDataset [["col1", "col2"]] = Except.ok []
      ∧ readDataset [] ≠ Except.error DatasetError.malformed
      ∧ readDataset [] ≠ Except.error DatasetError.unreadable := by
  refine ⟨rfl, rfl, ?_, ?_⟩ <;> intro h <;> exact Except.noConfusion h

/-- C9 (amended): the dataset iterator never fails with a `DatasetError`
(no such value exists in the source): iterating any content succeeds with a
row list; a missing header is not detected but silently yields no rows (or
consumes the first data record as the header), and an unreadable file
surfaces as an ordinary uncaught I/O exception outside the iterator. -/
theorem claim_c9_never_dataset_error :
    ∀ content : List (List String), ∃ rows : List Row,
      readDataset content = Except.ok rows :=
  fun content => ⟨dictReader content, rfl⟩

/-- C10 counterexample: for the spec "blue|" (which has a trailing empty
alternative) and the actual output "blue", `check_output` returns the first
matching alternative "blue", not the empty string — so it is not the case
that such a spec always yields the empty string as the matched term. -/
theorem claim_c10_counterexample :
    check_output "blue" "blue|" = (true, some "blue")
      ∧ check_output "blue" "blue|" ≠ (true, some "") := by
  refine ⟨by decide, by decide⟩

/-- C10 (amended): a non-empty spec one of whose alternatives trims to the
empty string accepts every possible actual output (the empty string is a
substring of everything); the matched term is the first alternative that
occurs, which is the empty string only when no earlier alternative matches
(see the counterexample). -/
theorem claim_c10_empty_alternative_passes (actual expected : String)
    (h1 : expected ≠ "") (h2 : "" ∈ alternativesOf expected) :
    (check_output actual expected).1 = true := by
  have hco : check_output actual expected
      = findAlt (pyLower actual) (alternativesOf expected) := by
    simp [check_output, h1]
  rw [hco]
  exact findAlt_fst_of_mem_empty (pyLower actual) _ h2

/-- C10 witness: the whitespace-trailing spec "blue|" accepts "red sky". -/
theorem claim_c10_empty_alternative_passes_witness :
    ("blue|" ≠ "" ∧ "" ∈ alternativesOf "blue|")
      ∧ (check_output "red sky" "blue|").1 = true :=
  ⟨⟨by decide, by decide⟩,
    claim_c10_empty_alternative_passes "red sky" "blue|" (by decide) (by decide)⟩
